import Mathlib

/-!
Verification of the core of an iterative DNS resolver against its
natural-language specification.

Names are modelled post-canonicalisation as lists of labels, most
significant label first; the root "." is the empty list.  All functions
below are shallow embeddings of the corresponding Go functions of the
repository (the source file and function are named on each definition).
-/

/-- A fully-qualified, canonical domain name: its list of labels,
e.g. `["www", "example", "com"]` for `www.example.com.`; the root `.`
is `[]`. -/
abbrev Fqdn := List String

/-- Embedding of `dns.IsSubDomain(parent, child)`: `child` is equal to,
or a subdomain of, `parent`; on canonical label lists this is the
suffix relation. -/
def isSubDomain (parent child : Fqdn) : Bool :=
  decide (parent <:+ child)

/-- The suffix of `l` keeping its last `i` labels; this is
`name[labelIndexes[i]:]` in the Go code (`labelIndexes` reversed, so
index `i` points at the suffix with `i` labels). -/
def suffixAt (l : Fqdn) (i : Nat) : Fqdn := l.drop (l.length - i)

/-- Embedding of the `domain` struct of the resolver (file
`unnamed/part_025`): the full canonical name together with the current
traversal position.  `labelIndexes` of the Go code has length
`labels.length + 1` and its entry `i` denotes the suffix with `i`
labels, so only `currentIdx` needs to be carried. -/
structure Domain where
  labels : Fqdn
  currentIdx : Nat
  deriving DecidableEq, Repr

/-- Embedding of `newDomain`. -/
def newDomain (labels : Fqdn) : Domain := ⟨labels, 0⟩

/-- Embedding of `domain.current()`: if the index pointer has moved past
the end of `labelIndexes` (whose length is `labels.length + 1`) the full
name is returned, otherwise the suffix at the current index. -/
def Domain.current (d : Domain) : Fqdn :=
  if d.labels.length + 1 ≤ d.currentIdx then d.labels
  else suffixAt d.labels d.currentIdx

/-- Embedding of `domain.next()`. -/
def Domain.next (d : Domain) : Domain := ⟨d.labels, d.currentIdx + 1⟩

/-- Embedding of `domain.more()`: `currentIdx <= len(labelIndexes)`,
which makes the full name be yielded twice. -/
def Domain.more (d : Domain) : Bool := d.currentIdx ≤ d.labels.length + 1

/-- Embedding of `domain.last()`: `currentIdx >= len(labelIndexes)-1`. -/
def Domain.last (d : Domain) : Bool := d.labels.length ≤ d.currentIdx

/-- Embedding of `domain.gap(target)`: empty unless the walker's full
name is a subdomain of `target`; otherwise the suffixes at indexes
`currentIdx, ..., currentIdx + missing - 1` where
`missing = CountLabel(target) - CountLabel(current())` (the Go `int`
comparison `missing <= 0` coincides with the truncated subtraction
being zero). -/
def Domain.gap (d : Domain) (target : Fqdn) : List Fqdn :=
  if ¬ isSubDomain target d.labels then []
  else
    let missing := target.length - d.current.length
    if missing = 0 then []
    else (List.range missing).map (fun k => suffixAt d.labels (d.currentIdx + k))

/-- The iteration `for ; d.more(); d.next() { yield d.current() }`,
exactly as driven by the resolver's label walk. -/
def walkFrom (d : Domain) : List Fqdn :=
  if d.more then d.current :: walkFrom d.next else []
termination_by d.labels.length + 2 - d.currentIdx
decreasing_by
  simp only [Domain.more, decide_eq_true_eq] at *
  simp [Domain.next]
  omega

/-- All values yielded by a fresh walker for `labels`. -/
def domainWalk (labels : Fqdn) : List Fqdn := walkFrom (newDomain labels)

/-!
The zone store (`zones` in files `unnamed/part_003` / `zones.go`).  In the
snapshot the `zone` values held by the store are structs with a canonical
apex name, a parent name (the empty string for the root zone) and a
nameserver pool whose only observable here is expiry; the store itself is
the map `zones.zones`, which is `nil` until the first `add`.
-/

/-- A stored zone as the zone store sees it: apex name, parent name
(`none` models the Go empty string, which is the root zone's parent) and
whether `z.pool.expired()` currently holds. -/
structure GoZone where
  name : Fqdn
  parent : Option Fqdn
  poolExpired : Bool
  deriving DecidableEq, Repr

/-- The underlying map `zones.zones`; an association list keyed by
canonical name, first binding wins. -/
abbrev StoreMap := List (Fqdn × GoZone)

/-- Map lookup `zones.zones[name]` (`nil` when absent). -/
def lookupZone (m : StoreMap) (k : Fqdn) : Option GoZone :=
  (m.find? (fun e => decide (e.1 = k))).map (fun e => e.2)

/-- The inner loop of `getZoneList`: starting from an unexpired non-root
zone `z` already collected in `acc`, repeatedly look up `z.parent`; a
missing or expired link (or running out of parents before reaching the
root) discards the chain (`none`), reaching a zone named `.` returns the
collected chain.  `fuel` bounds the walk: the Go loop would not
terminate on a store whose parent links form a cycle, and every acyclic
walk visits at most `m.length` distinct entries, so callers pass
`m.length + 1`. -/
def chainLoop (m : StoreMap) : Nat → GoZone → List GoZone → Option (List GoZone)
  | _, ⟨_, none, _⟩, _ => none
  | 0, ⟨_, some _, _⟩, _ => none
  | fuel + 1, ⟨_, some p, _⟩, acc =>
    match lookupZone m p with
    | none => none
    | some z2 =>
      if z2.poolExpired then none
      else if z2.name = [] then some (acc ++ [z2])
      else chainLoop m fuel z2 (acc ++ [z2])

/-- The chain attempt `getZoneList` makes for one suffix `s` of the query
name: the body of one outer-loop iteration, `none` meaning "continue with
the next suffix". -/
def chainResultAt (m : StoreMap) (s : Fqdn) : Option (List GoZone) :=
  match lookupZone m s with
  | none => none
  | some z =>
    if z.poolExpired then none
    else if z.name = [] then some [z]
    else chainLoop m (m.length + 1) z [z]

/-- The outer loop of `getZoneList` over the suffixes of the query name,
with the fall-through `return []*zone{zones.zones["."]}` when every
suffix fails. -/
def getZoneListLoop (m : StoreMap) : List Fqdn → List (Option GoZone)
  | [] => [lookupZone m []]
  | s :: rest =>
    match chainResultAt m s with
    | some chain => chain.map some
    | none => getZoneListLoop m rest

/-- The suffix sequence `append(dns.Split(name), len(name)-1)` walked by
`getZoneList`: the query name itself, then each shorter suffix, down to
the root. -/
def qnameSuffixes (q : Fqdn) : List Fqdn :=
  (List.range (q.length + 1)).map (fun i => q.drop i)

/-- Embedding of `zones.getZoneList` (file `unnamed/part_003`); the
store is `none` while `zones.zones` is still `nil`, in which case the Go
function returns `nil` (an empty slice).  Elements are `Option GoZone`
because the fall-through can return a slice holding a nil zone
pointer. -/
def getZoneList (store : Option StoreMap) (q : Fqdn) : List (Option GoZone) :=
  match store with
  | none => []
  | some m => getZoneListLoop m (qnameSuffixes q)

/-- Spec-level restatement used by the amended C3: the first suffix of
the query name whose chain attempt succeeds provides the result;
otherwise the one-element fall-through. -/
def getZoneListSpec (m : StoreMap) (q : Fqdn) : List (Option GoZone) :=
  match (qnameSuffixes q).findSome? (chainResultAt m) with
  | some chain => chain.map some
  | none => [lookupZone m []]

/-- Embedding of the prefix of `Resolver.exchange` (file
`unnamed/part_013`) that consumes `getZoneList`: the Go code runs
`d.windTo(knownZones[0].name())`, indexing the returned slice and
dereferencing the zone pointer with no nil check.  `none` models the
run-time panic (index out of range on an empty slice, nil-pointer
dereference on a nil entry); `some n` is the name handed to `windTo`. -/
def exchangeKnownZonesTarget (store : Option StoreMap) (q : Fqdn) : Option Fqdn :=
  match getZoneList store q with
  | [] => none
  | none :: _ => none
  | some z :: _ => some z.name

/-!
`checkForMissingZones` (file `unnamed/part_013`).  Only the owner names
of the authority+answer records matter to it; the SOA probes
`z.soa(ctx, name)` are network calls, modelled by an oracle
`soaYes zoneName name` that is true when the probe returns a SOA record
and no error (the probes are issued against the zone that is current at
that point of the loop, which changes as clones are created).  A clone
shares the original zone's pool, hence the inherited `poolExpired`.
-/

/-- Observable outcome of `checkForMissingZones`: the zone it returns,
the zones it registered in the store via `resolver.zones.add`, in order,
and the advanced walker. -/
structure MissingZonesOutcome where
  z : GoZone
  added : List GoZone
  d : Domain
  deriving DecidableEq, Repr

/-- Embedding of the `nextRecordsOwner` selection: fold over the record
owner names, replacing the pick by any differing owner that is a
subdomain of the current zone and has strictly more labels; `.` (the
empty name) when nothing qualifies. -/
def pickNextRecordsOwner (zname : Fqdn) (owners : List Fqdn) : Fqdn :=
  owners.foldl
    (fun pick o =>
      if pick ≠ o ∧ isSubDomain zname o = true ∧ pick.length < o.length then o else pick)
    []

/-- Embedding of the `for _, missingDomain := range missingZoneNames`
loop: probe the current zone for a SOA at each intermediate; on success
clone the current zone into a child rooted there, record it as added and
make it current; advance the walker in every iteration. -/
def missingZonesLoop (soaYes : Fqdn → Fqdn → Bool) :
    List Fqdn → MissingZonesOutcome → MissingZonesOutcome
  | [], st => st
  | md :: rest, st =>
    if soaYes st.z.name md then
      missingZonesLoop soaYes rest
        ⟨⟨md, some st.z.name, st.z.poolExpired⟩,
          st.added ++ [⟨md, some st.z.name, st.z.poolExpired⟩], st.d.next⟩
    else
      missingZonesLoop soaYes rest ⟨st.z, st.added, st.d.next⟩

/-- Embedding of `checkForMissingZones`: pick the deepest qualifying
owner, compute the walker's gap up to it, and run the probe loop. -/
def checkForMissingZones (soaYes : Fqdn → Fqdn → Bool)
    (d : Domain) (z : GoZone) (owners : List Fqdn) : MissingZonesOutcome :=
  if owners = [] then ⟨z, [], d⟩
  else
    let pick := pickNextRecordsOwner z.name owners
    if pick = [] then ⟨z, [], d⟩
    else missingZonesLoop soaYes (d.gap pick) ⟨z, [], d⟩

/-- Spec-level description for the amended C1: the `(name, parent)`
pairs of the zones the loop creates — one per intermediate whose SOA
probe against the zone current at that point succeeds. -/
def soaPositiveZones (soaYes : Fqdn → Fqdn → Bool) (zname : Fqdn) :
    List Fqdn → List (Fqdn × Fqdn)
  | [] => []
  | md :: rest =>
    if soaYes zname md then (md, zname) :: soaPositiveZones soaYes md rest
    else soaPositiveZones soaYes zname rest

/-- The zone `checkForMissingZones` ends on, in terms of the created
pairs: the last created zone, or the original zone when none was. -/
def lastCreated (z : GoZone) (ps : List (Fqdn × Fqdn)) : GoZone :=
  match ps.getLast? with
  | none => z
  | some p => ⟨p.1, some p.2, z.poolExpired⟩

/-- Concrete SOA oracle for the C1 scenario: positive for
`d.example.com.` probed at `example.com.` and for `c.d.example.com.`
probed at the newly created `d.example.com.` zone. -/
def c1soa : Fqdn → Fqdn → Bool := fun zn n =>
  decide ((zn = ["example", "com"] ∧ n = ["d", "example", "com"]) ∨
    (zn = ["d", "example", "com"] ∧ n = ["c", "d", "example", "com"]))

/-- Walker for `a.b.c.d.example.com.` wound to `d.example.com.`. -/
def c1dom : Domain := ⟨["a", "b", "c", "d", "example", "com"], 3⟩

/-- The current zone `example.com.` of the C1 scenario. -/
def c1zone : GoZone := ⟨["example", "com"], some ["com"], false⟩

/-- Owner names seen in the C1 scenario's response. -/
def c1owners : List Fqdn := [["a", "b", "c", "d", "example", "com"]]

/-!
The nameserver pool (file `unnamed/part_011`, the snapshot whose expiry
is the atomic `expires` integer, zero meaning never-expires).  Resource
records are modelled with their owner name, numeric type, TTL and an
opaque payload standing for the address bytes.
-/

/-- Numeric record type of an A record. -/
abbrev typeA : Nat := 1

/-- Numeric record type of an NS record. -/
abbrev typeNS : Nat := 2

/-- Numeric record type of a CNAME record. -/
abbrev typeCNAME : Nat := 5

/-- Numeric record type of a SOA record. -/
abbrev typeSOA : Nat := 6

/-- Numeric record type of an AAAA record. -/
abbrev typeAAAA : Nat := 28

/-- Numeric record type of an OPT pseudo-record. -/
abbrev typeOPT : Nat := 41

/-- Numeric record type of a DS record. -/
abbrev typeDS : Nat := 43

/-- A resource record as far as the embedded functions inspect one:
owner name, type, TTL and an opaque payload standing for the rdata. -/
structure RR where
  name : Fqdn
  rtype : Nat
  ttl : Nat
  payload : Nat
  deriving DecidableEq, Repr

/-- A nameserver handle held by a pool: the record's owner name and the
opaque address taken from its rdata. -/
structure PoolServer where
  hostname : Fqdn
  addr : Nat
  deriving DecidableEq, Repr

/-- The pool state touched by `enrich`: the unresolved hostnames, the
two per-family server vectors, and the atomic expiry in Unix seconds
(`0` means the expiry was never set — the root pool). -/
structure NameserverPool where
  hostsWithoutAddresses : List Fqdn
  ipv4 : List PoolServer
  ipv6 : List PoolServer
  expires : Int
  deriving DecidableEq, Repr

/-- Embedding of `findAddressesForHostname`: the A records, the AAAA
records and the minimum TTL seen over both, starting from the process
cap `MaxAllowedTTL` (passed as `maxTTL`). -/
def findAddressesForHostname (maxTTL : Nat) (hostname : Fqdn) (records : List RR) :
    List RR × List RR × Nat :=
  records.foldl
    (fun acc rr =>
      if rr.name ≠ hostname then acc
      else if rr.rtype = typeA then (acc.1 ++ [rr], acc.2.1, min rr.ttl acc.2.2)
      else if rr.rtype = typeAAAA then (acc.1, acc.2.1 ++ [rr], min rr.ttl acc.2.2)
      else acc)
    ([], [], maxTTL)

/-- Intermediate state of the `enrich` loop over
`pool.hostsWithoutAddresses`. -/
structure EnrichAcc where
  still : List Fqdn
  ipv4 : List PoolServer
  ipv6 : List PoolServer
  ttl : Nat
  deriving DecidableEq, Repr

/-- One iteration of the `enrich` loop for hostname `h`. -/
def enrichStep (maxTTL : Nat) (records : List RR) (acc : EnrichAcc) (h : Fqdn) : EnrichAcc :=
  let found := findAddressesForHostname maxTTL h records
  if found.1 = [] ∧ found.2.1 = [] then
    ⟨acc.still ++ [h], acc.ipv4, acc.ipv6, acc.ttl⟩
  else
    ⟨acc.still,
      acc.ipv4 ++ found.1.map (fun r => ⟨r.name, r.payload⟩),
      acc.ipv6 ++ found.2.1.map (fun r => ⟨r.name, r.payload⟩),
      min found.2.2 acc.ttl⟩

/-- Embedding of `nameserverPool.enrich` (file `unnamed/part_011`,
lines 296-350): against each still-unresolved hostname the matching
A/AAAA records are appended to the family vectors; afterwards, when an
expiry had been set (`expires > 0`), the expiry is stored as
`now + ttl` — the commented-out min-with-existing update of the older
`pool.go` snapshot is gone. -/
def NameserverPool.enrich (maxTTL : Nat) (now : Int)
    (pool : NameserverPool) (records : List RR) : NameserverPool :=
  if records = [] then pool
  else
    let acc := pool.hostsWithoutAddresses.foldl (enrichStep maxTTL records)
      ⟨[], pool.ipv4, pool.ipv6, maxTTL⟩
    { hostsWithoutAddresses := acc.still
      ipv4 := acc.ipv4
      ipv6 := acc.ipv6
      expires := if 0 < pool.expires then now + (acc.ttl : Int) else pool.expires }

/-- Whether some A or AAAA record in `records` is owned by `h` — the
negation of the `len(a) == 0 && len(aaaa) == 0` test of the loop. -/
def hostHasAddress (h : Fqdn) (records : List RR) : Bool :=
  records.any (fun r => r.name = h ∧ (r.rtype = typeA ∨ r.rtype = typeAAAA))

/-- The A records of `records` owned by `h`. -/
def hostARecords (h : Fqdn) (records : List RR) : List RR :=
  records.filter (fun r => r.name = h ∧ r.rtype = typeA)

/-- The AAAA records of `records` owned by `h`. -/
def hostAAAARecords (h : Fqdn) (records : List RR) : List RR :=
  records.filter (fun r => r.name = h ∧ r.rtype = typeAAAA)

/-- The A/AAAA records of `records` owned by `h` in record order. -/
def hostAddrRecords (h : Fqdn) (records : List RR) : List RR :=
  records.filter (fun r => r.name = h ∧ (r.rtype = typeA ∨ r.rtype = typeAAAA))

/-- Running minimum of TTLs starting from `base`, exactly the
`ttl = min(rr.Header().Ttl, ttl)` accumulation of the Go loops. -/
def minTtlOver (base : Nat) (l : List RR) : Nat :=
  l.foldl (fun t r => min r.ttl t) base

/-- A pool server built from an address record. -/
def serverOfRecord (r : RR) : PoolServer := ⟨r.name, r.payload⟩

/-!
DNS messages and the DNSSEC authenticator's final verdict
(`Authenticator.Result`, file `dnssec/result.go`), plus the resolver's
response post-processing (`finaliseResponse`, file `unnamed/part_013`).
-/

/-- A DNS message as far as the embedded functions inspect one. -/
structure Msg where
  rcode : Nat
  question : List (Fqdn × Nat)
  answer : List RR
  ns : List RR
  extra : List RR
  authenticatedData : Bool
  deriving DecidableEq, Repr

/-- Embedding of `recordsOfTypeExist`. -/
def recordsOfTypeExist (rrs : List RR) (t : Nat) : Bool :=
  rrs.any (fun r => r.rtype = t)

/-- Embedding of `extractRecordsOfNameAndType`. -/
def extractRecordsOfNameAndType (rrs : List RR) (n : Fqdn) (t : Nat) : List RR :=
  rrs.filter (fun r => r.name = n ∧ r.rtype = t)

/-- Embedding of `dnssec.AuthenticationResult`. -/
inductive AuthenticationResult where
  | unknown
  | insecure
  | secure
  | bogus
  deriving DecidableEq, Repr

/-- Embedding of `dnssec.DenialOfExistenceState`. -/
inductive DenialOfExistenceState where
  | notFound
  | nsecMissingDS
  | nsecNoData
  | nsecNxDomain
  | nsecWildcard
  | nsec3MissingDS
  | nsec3NoData
  | nsec3NxDomain
  | nsec3OptOut
  | nsec3Wildcard
  deriving DecidableEq, Repr

/-- One entry of the authenticator's `results` history, with the fields
`Result()` reads: state, denial-of-existence, error (opaque) and the
response message (`none` models a nil `msg` pointer, whose sections
`Result()` would dereference only in the final positive-answer step). -/
structure DnssecResult where
  state : AuthenticationResult
  denialOfExistence : DenialOfExistenceState
  err : Option Nat
  msg : Option Msg
  deriving DecidableEq, Repr

/-- The `for i, r := range a.results` walk of `Result()` that finds the
first non-Secure result: `prev` is `a.results[i-1]` (`none` at index 0);
on the first non-Secure entry the verdict is decided — any
denial-of-existence on the previous result gives Insecure, else
Bogus. -/
def walkChain (prev : Option DnssecResult) :
    List DnssecResult → Option (AuthenticationResult × DenialOfExistenceState × Option Nat)
  | [] => none
  | r :: rest =>
    if r.state = .secure then walkChain (some r) rest
    else
      match prev with
      | none => some (r.state, r.denialOfExistence, r.err)
      | some lastResult =>
        if lastResult.denialOfExistence ≠ .notFound then
          some (.insecure, lastResult.denialOfExistence, r.err)
        else some (.bogus, lastResult.denialOfExistence, r.err)

/-- Embedding of `Authenticator.Result()` (file `dnssec/result.go`,
given the question and the accumulated results):  no results → Unknown;
any Bogus result → Bogus; a Secure→non-Secure transition is judged by
`walkChain`; otherwise the last result decides, ending with the
positive-answer checks against the question. -/
def authResultVerdict (qname : Fqdn) (qtype : Nat) (results : List DnssecResult) :
    AuthenticationResult × DenialOfExistenceState × Option Nat :=
  if results = [] then (.unknown, .notFound, none)
  else
    match results.find? (fun r => r.state = .bogus) with
    | some r => (.bogus, .notFound, r.err)
    | none =>
      match walkChain none results with
      | some v => v
      | none =>
        match results.getLast? with
        | none => (.unknown, .notFound, none)
        | some last =>
          if last.state ≠ .secure then (last.state, last.denialOfExistence, last.err)
          else if last.denialOfExistence = .nsec3OptOut then
            (.insecure, last.denialOfExistence, last.err)
          else if last.denialOfExistence ≠ .notFound then
            (.secure, last.denialOfExistence, last.err)
          else
            let ns := (last.msg.map Msg.ns).getD []
            let ans := (last.msg.map Msg.answer).getD []
            if recordsOfTypeExist ns typeSOA then (.bogus, last.denialOfExistence, last.err)
            else if extractRecordsOfNameAndType ans qname qtype ≠ [] then
              (.secure, last.denialOfExistence, last.err)
            else if extractRecordsOfNameAndType ans qname typeCNAME ≠ [] then
              (.secure, last.denialOfExistence, last.err)
            else (.bogus, last.denialOfExistence, last.err)

/-- Errors `finaliseResponse` can leave on the response. -/
inductive FErr where
  | fromAuth (code : Nat)
  | badRcode (rcode : Nat)
  | fromCname (code : Nat)
  deriving DecidableEq, Repr

/-- The resolver's `*Response` as `finaliseResponse` returns it. -/
structure FResponse where
  msg : Option Msg
  err : Option FErr
  auth : AuthenticationResult
  deo : DenialOfExistenceState
  deriving DecidableEq, Repr

/-- The three process-wide flags `finaliseResponse` consults. -/
structure FinaliseFlags where
  removeAuthoritySectionForPositiveAnswers : Bool
  removeAdditionalSectionForPositiveAnswers : Bool
  suppressBogusResponseSections : Bool
  deriving DecidableEq, Repr

/-- Embedding of `dns.Dedup` as used per section: keep the first
occurrence of each record. -/
def dedupKeepFirst (l : List RR) : List RR :=
  l.foldl (fun acc r => if r ∈ acc then acc else acc ++ [r]) []

/-- The first OPT pseudo-record of the additional section. -/
def firstOptRecord (l : List RR) : Option RR :=
  l.find? (fun r => r.rtype = typeOPT)

/-- Steps 3-6 of `finaliseResponse` on the message sections: strip the
authority section on a positive answer, strip the additional section
(keeping one OPT), then de-duplicate each section.  The rcode, question
and AD flag are untouched here. -/
def finaliseSections (flags : FinaliseFlags) (m : Msg) : Msg :=
  let ns1 :=
    if flags.removeAuthoritySectionForPositiveAnswers ∧ m.answer ≠ []
        ∧ ¬ recordsOfTypeExist m.ns typeSOA then [] else m.ns
  let extra1 :=
    if flags.removeAdditionalSectionForPositiveAnswers ∧ m.answer ≠ []
        ∧ ¬ recordsOfTypeExist ns1 typeSOA then
      match firstOptRecord m.extra with
      | some o => [o]
      | none => []
    else m.extra
  { m with
    answer := if m.answer ≠ [] then dedupKeepFirst m.answer else m.answer
    ns := if ns1 ≠ [] then dedupKeepFirst ns1 else ns1
    extra := if extra1 ≠ [] then dedupKeepFirst extra1 else extra1 }

/-- The rcode check of `finaliseResponse`: anything other than NoError
(0) and NXDomain (3) replaces the response error. -/
def finaliseErr (m : Msg) (err : Option FErr) : Option FErr :=
  if m.rcode = 0 ∨ m.rcode = 3 then err else some (.badRcode m.rcode)

/-- The tail of `finaliseResponse` after the CNAME step: section
post-processing, then — only when an authenticator was used and CD is
not set — stamp AD iff Secure and, on Bogus, force rcode SERVFAIL (2)
and optionally clear all three sections. -/
def finaliseTail (flags : FinaliseFlags) (authUsed : Bool) (checkingDisabled : Bool)
    (m : Msg) (err : Option FErr) (auth : AuthenticationResult)
    (deo : DenialOfExistenceState) : FResponse :=
  let m1 := finaliseSections flags m
  if authUsed ∧ ¬ checkingDisabled then
    let m2 := { m1 with authenticatedData := auth = .secure }
    if auth = .bogus then
      if flags.suppressBogusResponseSections then
        ⟨some { m2 with rcode := 2, answer := [], ns := [], extra := [] },
          finaliseErr m err, auth, deo⟩
      else ⟨some { m2 with rcode := 2 }, finaliseErr m err, auth, deo⟩
    else ⟨some m2, finaliseErr m err, auth, deo⟩
  else ⟨some m1, finaliseErr m err, auth, deo⟩

/-- Embedding of `finaliseResponse` (file `unnamed/part_013`).  The
authenticator's verdict, when one was used, arrives as `authRes`; the
injected CNAME-following hook (`resolver.funcs.cname`) is the parameter
`cnameFn`, which rewrites the message and the combined authentication
state or fails; on its failure a fresh error-only response is returned,
exactly like the Go early return. -/
def finaliseResponse (flags : FinaliseFlags)
    (cnameFn : Msg → AuthenticationResult → Except Nat (Msg × AuthenticationResult))
    (authRes : Option (AuthenticationResult × DenialOfExistenceState × Option Nat))
    (qtype : Nat) (checkingDisabled : Bool)
    (msg0 : Msg) (err0 : Option FErr) (auth0 : AuthenticationResult)
    (deo0 : DenialOfExistenceState) : FResponse :=
  let auth1 := match authRes with
    | some (a, _, _) => a
    | none => auth0
  let deo1 := match authRes with
    | some (_, deo, _) => deo
    | none => deo0
  let err1 := match authRes with
    | some (_, _, e) => e.map FErr.fromAuth
    | none => err0
  if qtype ≠ typeCNAME ∧ recordsOfTypeExist msg0.answer typeCNAME then
    match cnameFn msg0 auth1 with
    | .error e => ⟨none, some (.fromCname e), .unknown, .notFound⟩
    | .ok (msg1, auth2) =>
      finaliseTail flags authRes.isSome checkingDisabled msg1 err1 auth2 deo1
  else finaliseTail flags authRes.isSome checkingDisabled msg0 err1 auth1 deo1

/-!
The single-nameserver transport (`nameserver.exchange`, file
`unnamed/part_010`): one UDP attempt, then — only when the UDP attempt
errored or its reply was truncated — one TCP attempt to the same
address.  The two attempts' outcomes are inputs here; the network is not
modelled.
-/

/-- A reply message as the transport inspects it: its truncated flag and
an opaque payload to tell replies apart. -/
structure NsMsg where
  truncated : Bool
  payload : Nat
  deriving DecidableEq, Repr

/-- The outcome of one `client.ExchangeContext` call: an optional reply
and an optional (opaque) error. -/
structure NsAttempt where
  msg : Option NsMsg
  err : Option Nat
  deriving DecidableEq, Repr

/-- Transport protocols tried by the loop, in order. -/
inductive NsProtocol where
  | udp
  | tcp
  deriving DecidableEq, Repr

/-- Errors of the transport's response. -/
inductive NsErr where
  | nilMessage
  | clientErr (code : Nat)
  deriving DecidableEq, Repr

/-- The transport's `*Response`: reply and error as returned. -/
structure NsResult where
  msg : Option NsMsg
  err : Option NsErr
  deriving DecidableEq, Repr

/-- `r.Msg.Truncated` — reading it with a nil `Msg` would panic in Go;
the embedding is only exercised under the client contract that a nil
error comes with a non-nil reply (a hypothesis of the C8 theorem). -/
def truncatedOf (m : Option NsMsg) : Bool :=
  match m with
  | none => false
  | some m => m.truncated

/-- The TCP iteration of the transport loop, reached only when the UDP
attempt errored or was truncated; every branch of the Go loop body ends
up returning this attempt's response. -/
def nsTcpLeg (tcpA : NsAttempt) : NsResult × List NsProtocol :=
  let r2 : NsResult := ⟨tcpA.msg, tcpA.err.map .clientErr⟩
  if r2.err.isSome then (r2, [.udp, .tcp])
  else if truncatedOf r2.msg = false then (r2, [.udp, .tcp])
  else (r2, [.udp, .tcp])

/-- Embedding of `nameserver.exchange` (file `unnamed/part_010`, given
the outcomes of the UDP and TCP attempts): the
`for _, protocol := range []string{"udp", "tcp"}` loop, returning the
response together with the list of protocols actually attempted.  A nil
query message is rejected before any attempt. -/
def nsExchange (m : Option Nat) (udpA tcpA : NsAttempt) : NsResult × List NsProtocol :=
  match m with
  | none => (⟨none, some .nilMessage⟩, [])
  | some _ =>
    let r1 : NsResult := ⟨udpA.msg, udpA.err.map .clientErr⟩
    if r1.err.isSome then nsTcpLeg tcpA
    else if truncatedOf r1.msg = false then (r1, [.udp])
    else nsTcpLeg tcpA

/-!
The nameserver pool's exchange (file `pool_exchange.go`): family
selection, a single retry, and the final error wrap.  The outcomes of
the (up to two) per-server exchanges are inputs — `firstV4`/`firstV6`
for whichever server the first pick would use, `retryV4`/`retryV6` for
the retry pick; `getIPv4()`/`getIPv6()` return nil exactly when the
family is empty, which the selection mirrors.
-/

/-- A reply as the pool inspects it. -/
structure PMsg where
  truncated : Bool
  payload : Nat
  deriving DecidableEq, Repr

/-- One per-server exchange outcome: optional reply, optional (opaque)
transport error. -/
structure PoolResp where
  msg : Option PMsg
  err : Option Nat
  deriving DecidableEq, Repr

/-- The errors `pool.exchange` itself produces. -/
inductive PoolErr where
  | noPoolConfigured (zone : Option Fqdn)
  | unableToResolve (qname : Fqdn) (zone : Option Fqdn) (wrapped : Option Nat)
  deriving DecidableEq, Repr

/-- The `*Response` as returned by `pool.exchange`. -/
structure PoolOut where
  msg : Option PMsg
  err : Option PoolErr
  deriving DecidableEq, Repr

/-- `response.IsEmpty()` on a possibly-nil `*Response`. -/
def respEmpty : Option PoolResp → Bool
  | none => true
  | some r => r.msg.isNone

/-- `response.HasError()` on a possibly-nil `*Response`. -/
def respHasErr : Option PoolResp → Bool
  | none => false
  | some r => r.err.isSome

/-- `response.truncated()` on a possibly-nil `*Response`. -/
def respTrunc : Option PoolResp → Bool
  | none => false
  | some r =>
    match r.msg with
    | none => false
    | some m => m.truncated

/-- The attempt-selection part of `pool.exchange`: pick a family for the
first attempt (IPv6 when available and present, else IPv4 — nil when
that family is empty), then on an empty, errored or truncated response
retry once, preferring IPv4. -/
def poolSelect (hasIPv4 hasIPv6 ipv6Avail : Bool)
    (firstV4 firstV6 retryV4 retryV6 : PoolResp) : Option PoolResp :=
  let r1 : Option PoolResp :=
    if hasIPv6 ∧ ipv6Avail then some firstV6
    else if hasIPv4 then some firstV4
    else none
  if respEmpty r1 ∨ respHasErr r1 ∨ respTrunc r1 then
    if hasIPv4 then some retryV4
    else if hasIPv6 then some retryV6
    else r1
  else r1

/-- The final error wrap of `pool.exchange`: an empty or errored final
response gets `ErrUnableToResolveAnswer` with the query name, the
context zone, and the prior error as cause. -/
def poolWrap (zoneCtx : Option Fqdn) (qname : Fqdn) (r : PoolResp) : PoolOut :=
  if r.msg.isNone ∨ r.err.isSome then
    ⟨r.msg, some (.unableToResolve qname zoneCtx r.err)⟩
  else ⟨r.msg, none⟩

/-- Embedding of `nameserverPool.exchange` (file `pool_exchange.go`):
reject a pool with no servers at all with `ErrNoPoolConfiguredForZone`
(naming the zone when the context carries one); run the attempts; and if
the final response is empty or errored, wrap with
`ErrUnableToResolveAnswer`.  The `none` output models the nil-pointer
write Go would crash on if the selection produced no response; it is
proved unreachable. -/
def poolExchange (hasIPv4 hasIPv6 ipv6Avail : Bool) (zoneCtx : Option Fqdn) (qname : Fqdn)
    (firstV4 firstV6 retryV4 retryV6 : PoolResp) : Option PoolOut :=
  if ¬ hasIPv4 ∧ ¬ hasIPv6 then some ⟨none, some (.noPoolConfigured zoneCtx)⟩
  else
    match poolSelect hasIPv4 hasIPv6 ipv6Avail firstV4 firstV6 retryV4 retryV6 with
    | none => none
    | some r => some (poolWrap zoneCtx qname r)

theorem walkFrom_spec (d : Domain) :
    walkFrom d = (List.range' d.currentIdx (d.labels.length + 2 - d.currentIdx)).map
      (fun i => Domain.current ⟨d.labels, i⟩) := by
  generalize hk : d.labels.length + 2 - d.currentIdx = k
  induction k generalizing d with
  | zero =>
    rw [walkFrom]
    have hm : d.more = false := by simp [Domain.more]; omega
    simp [hm]
  | succ k ih =>
    rw [walkFrom]
    have hm : d.more = true := by simp [Domain.more]; omega
    have h2 : d.next.labels.length + 2 - d.next.currentIdx = k := by
      simp [Domain.next]; omega
    rw [List.range'_succ]
    simp only [hm, if_true, List.map_cons]
    congr 1
    exact ih d.next h2

theorem domainWalk_explicit (labels : Fqdn) :
    domainWalk labels
      = (List.range (labels.length + 1)).map (fun i => suffixAt labels i) ++ [labels] := by
  rw [domainWalk, walkFrom_spec]
  show (List.range' 0 (labels.length + 2 - 0)).map (fun i => Domain.current ⟨labels, i⟩) = _
  rw [Nat.sub_zero, ← List.range_eq_range', List.range_succ, List.map_append]
  congr 1
  · refine List.map_congr_left (fun i hi => ?hc)
    have hi2 : i < labels.length + 1 := List.mem_range.mp hi
    simp only [Domain.current]
    rw [if_neg (by omega)]
  · simp [Domain.current]

theorem domainWalk_dropLast (labels : Fqdn) :
    (domainWalk labels).dropLast
      = (List.range (labels.length + 1)).map (fun i => suffixAt labels i) := by
  rw [domainWalk_explicit, List.dropLast_concat]

theorem suffixAt_length (labels : Fqdn) (i : Nat) (h : i ≤ labels.length) :
    (suffixAt labels i).length = i := by
  simp [suffixAt]
  omega

theorem domainWalk_dropLast_nodup (labels : Fqdn) :
    (domainWalk labels).dropLast.Nodup := by
  rw [domainWalk_dropLast]
  refine List.Nodup.map_on ?inj (List.nodup_range _)
  intro x hx y hy hxy
  have hx2 : x < labels.length + 1 := List.mem_range.mp hx
  have hy2 : y < labels.length + 1 := List.mem_range.mp hy
  have := congrArg List.length hxy
  rw [suffixAt_length labels x (by omega), suffixAt_length labels y (by omega)] at this
  exact this

theorem suffixAt_last (labels : Fqdn) : suffixAt labels labels.length = labels := by
  simp [suffixAt]

/-- C7: iterating a fresh domain walker for a canonical name with
current()/next() until more() is false yields `labelCount + 2` values in
total, of which exactly `labelCount + 1` are distinct; every yield is a
suffix of the name, the first yield is the root `.`, and the last two
yields are both the full name. -/
theorem c7_domain_walk (labels : Fqdn) :
    (domainWalk labels).length = labels.length + 2 ∧
    (domainWalk labels).head? = some [] ∧
    (∀ s ∈ domainWalk labels, s <:+ labels) ∧
    (domainWalk labels).getLast? = some labels ∧
    (domainWalk labels).dropLast.getLast? = some labels ∧
    (domainWalk labels).toFinset.card = labels.length + 1 := by
  refine ⟨?len, ?hd, ?suf, ?lst, ?lst2, ?card⟩
  case len => rw [domainWalk_explicit]; simp
  case hd =>
    rw [domainWalk_explicit, List.range_succ_eq_map]
    simp [suffixAt, List.drop_length]
  case suf =>
    intro s hs
    rw [domainWalk_explicit, List.mem_append] at hs
    rcases hs with hs | hs
    · obtain ⟨i, _, rfl⟩ := List.mem_map.mp hs
      exact List.drop_suffix _ _
    · simp only [List.mem_singleton] at hs
      exact hs ▸ List.suffix_refl labels
  case lst => rw [domainWalk_explicit, List.getLast?_concat]
  case lst2 =>
    rw [domainWalk_dropLast, List.range_succ, List.map_append]
    simp only [List.map_cons, List.map_nil]
    rw [List.getLast?_concat, suffixAt_last]
  case card =>
    rw [domainWalk_explicit]
    have hmem : labels ∈ (List.range (labels.length + 1)).map (fun i => suffixAt labels i) := by
      refine List.mem_map.mpr ⟨labels.length, List.mem_range.mpr (by omega), suffixAt_last labels⟩
    have hnd : ((List.range (labels.length + 1)).map (fun i => suffixAt labels i)).Nodup := by
      have := domainWalk_dropLast_nodup labels
      rwa [domainWalk_dropLast] at this
    rw [List.toFinset_append]
    have : ([labels] : List Fqdn).toFinset
        ⊆ ((List.range (labels.length + 1)).map (fun i => suffixAt labels i)).toFinset := by
      intro x hx
      simp only [List.toFinset_cons, List.toFinset_nil, insert_emptyc_eq, Finset.mem_singleton] at hx
      exact List.mem_toFinset.mpr (hx ▸ hmem)
    rw [Finset.union_eq_left.mpr this, List.toFinset_card_of_nodup hnd, List.length_map,
      List.length_range]

/-- C6 counterexample: for the walker over `www.example.com.` positioned
at `com.` (one step in) and target `example.com.`, `gap` returns `[com.]`:
the list contains the walker's current FQDN, so it is not the list of
names strictly between the current position and the target. -/
theorem c6_gap_counterexample :
    Domain.gap ⟨["www", "example", "com"], 1⟩ ["example", "com"] = [["com"]] ∧
    Domain.current ⟨["www", "example", "com"], 1⟩ = ["com"] := by
  constructor <;> rfl

/-- C6 amended: when the walker's full name is a subdomain of `target`
and `target` has more labels than the walker's position, `gap(target)`
returns the FQDNs from the current FQDN (inclusive) up to but excluding
`target`, ordered shortest to longest (the suffixes with
`currentIdx, ..., target.length - 1` labels); the target itself is never
in the list, and the list is empty when the target has no more labels
than the current FQDN. -/
theorem c6_gap_amended (d : Domain) (target : Fqdn)
    (h : target <:+ d.labels) (hlen : d.currentIdx < target.length) :
    d.gap target
        = (List.range' d.currentIdx (target.length - d.currentIdx)).map (suffixAt d.labels) ∧
    (d.gap target).head? = some d.current ∧
    target ∉ d.gap target := by
  have hts : target.length ≤ d.labels.length := List.IsSuffix.length_le h
  have hcur : d.current = suffixAt d.labels d.currentIdx := by
    simp only [Domain.current]
    rw [if_neg (by omega)]
  have hcl : d.current.length = d.currentIdx := by
    rw [hcur]; exact suffixAt_length _ _ (by omega)
  have hmain : d.gap target
      = (List.range' d.currentIdx (target.length - d.currentIdx)).map (suffixAt d.labels) := by
    rw [Domain.gap, if_neg (by simp [isSubDomain, h]), hcl]
    rw [if_neg (by omega)]
    rw [List.range'_eq_map_range, List.map_map]
    rfl
  refine ⟨hmain, ?hd, ?notmem⟩
  case hd =>
    rw [hmain]
    have : target.length - d.currentIdx = (target.length - d.currentIdx - 1) + 1 := by omega
    rw [this, List.range'_succ]
    simp [hcur]
  case notmem =>
    rw [hmain]
    intro hmem
    obtain ⟨i, hi, hieq⟩ := List.mem_map.mp hmem
    have hi2 := List.mem_range'_1.mp hi
    have := congrArg List.length hieq
    rw [suffixAt_length _ _ (by omega)] at this
    omega

theorem c6_gap_amended_witness :
    ((["example", "com"] : Fqdn) <:+ ["www", "example", "com"]) ∧
    ((⟨["www", "example", "com"], 1⟩ : Domain).currentIdx < (["example", "com"] : Fqdn).length) ∧
    (Domain.gap ⟨["www", "example", "com"], 1⟩ ["example", "com"]
        = (List.range' 1 ((["example", "com"] : Fqdn).length - 1)).map
            (suffixAt ["www", "example", "com"]) ∧
      (Domain.gap ⟨["www", "example", "com"], 1⟩ ["example", "com"]).head?
        = some (Domain.current ⟨["www", "example", "com"], 1⟩) ∧
      (["example", "com"] : Fqdn) ∉ Domain.gap ⟨["www", "example", "com"], 1⟩ ["example", "com"]) :=
  ⟨by decide, by decide,
    c6_gap_amended ⟨["www", "example", "com"], 1⟩ ["example", "com"] (by decide) (by decide)⟩

theorem getZoneListLoop_eq_spec (m : StoreMap) (ss : List Fqdn) :
    getZoneListLoop m ss
      = match ss.findSome? (chainResultAt m) with
        | some chain => chain.map some
        | none => [lookupZone m []] := by
  induction ss with
  | nil => rfl
  | cons s rest ih =>
    rw [getZoneListLoop, List.findSome?_cons]
    cases h : chainResultAt m s with
    | some chain => rfl
    | none => exact ih

theorem getZoneList_eq_spec (m : StoreMap) (q : Fqdn) :
    getZoneList (some m) q = getZoneListSpec m q :=
  getZoneListLoop_eq_spec m (qnameSuffixes q)

theorem chainLoop_last_root (m : StoreMap) :
    ∀ (fuel : Nat) (z : GoZone) (acc : List GoZone) (l : List GoZone),
      chainLoop m fuel z acc = some l →
      ∃ zr, l.getLast? = some zr ∧ zr.name = [] := by
  intro fuel
  induction fuel with
  | zero =>
    intro z acc l h
    rcases z with ⟨n, p, e⟩
    cases p <;> simp [chainLoop] at h
  | succ fuel ih =>
    intro z acc l h
    rcases z with ⟨n, p, e⟩
    cases p with
    | none => simp [chainLoop] at h
    | some p =>
      simp only [chainLoop] at h
      split at h
      next => exact absurd h (by simp)
      next z2 hz2 =>
        split at h
        next => exact absurd h (by simp)
        next =>
          split at h
          next hroot =>
            exact ⟨z2, by rw [← Option.some.inj h, List.getLast?_concat], hroot⟩
          next => exact ih z2 (acc ++ [z2]) l h

theorem exists_mem_of_findSome_eq_some {α β : Type} (f : α → Option β) :
    ∀ (l : List α) (b : β), l.findSome? f = some b → ∃ a ∈ l, f a = some b := by
  intro l
  induction l with
  | nil => intro b h; simp [List.findSome?_nil] at h
  | cons a l ih =>
    intro b h
    rw [List.findSome?_cons] at h
    split at h
    next c hfa => exact ⟨a, List.mem_cons_self a l, by rw [hfa]; exact h⟩
    next hfa =>
      obtain ⟨x, hx, hfx⟩ := ih b h
      exact ⟨x, List.mem_cons_of_mem a hx, hfx⟩

theorem chainResultAt_last_root (m : StoreMap) (s : Fqdn) (l : List GoZone)
    (h : chainResultAt m s = some l) :
    ∃ zr, l.getLast? = some zr ∧ zr.name = [] := by
  rw [chainResultAt] at h
  split at h
  next => exact absurd h (by simp)
  next z hz =>
    split at h
    next => exact absurd h (by simp)
    next =>
      split at h
      next hroot => exact ⟨z, by rw [← Option.some.inj h]; rfl, hroot⟩
      next => exact chainLoop_last_root m (m.length + 1) z [z] l h

/-- C3 counterexample: with the store holding unexpired zones for
`www.example.com.` (parent `example.com.`), `com.` (parent `.`) and the
root, but nothing for `example.com.`, the chain from the most-specific
stored ancestor `www.example.com.` is broken, yet `getZoneList` does not
fall back to only the root: it returns the two-zone chain
`[com., .]` found from the next stored ancestor. -/
theorem c3_get_zone_list_counterexample :
    getZoneList
        (some [(["www", "example", "com"],
                  ⟨["www", "example", "com"], some ["example", "com"], false⟩),
               (["com"], ⟨["com"], some [], false⟩),
               ([], ⟨[], none, false⟩)])
        ["www", "example", "com"]
      = [some ⟨["com"], some [], false⟩, some ⟨[], none, false⟩] ∧
    [some (⟨["com"], some [], false⟩ : GoZone), some ⟨[], none, false⟩]
      ≠ [some (⟨[], none, false⟩ : GoZone)] := by
  constructor
  · rfl
  · simp

/-- C3 amended: `getZoneList` returns, for the most-specific stored
unexpired ancestor of the query name from which an unbroken chain of
stored unexpired parent links reaches the root, that chain ordered
most-specific to root; ancestors whose chain is broken are skipped in
favour of less-specific ones (rather than truncating to only the root),
and only when no ancestor yields an unbroken chain is the one-element
list holding the store's root entry returned.  The last element of the
returned list is always the store's root entry or a zone named `.`. -/
theorem c3_get_zone_list_amended (m : StoreMap) (q : Fqdn) :
    getZoneList (some m) q = getZoneListSpec m q ∧
    ((getZoneList (some m) q).getLast? = some (lookupZone m []) ∨
      ∃ zr, (getZoneList (some m) q).getLast? = some (some zr) ∧ zr.name = []) := by
  refine ⟨getZoneList_eq_spec m q, ?lst⟩
  rw [getZoneList_eq_spec, getZoneListSpec]
  cases h : (qnameSuffixes q).findSome? (chainResultAt m) with
  | none => left; rfl
  | some chain =>
    right
    obtain ⟨s, hs, hcr⟩ := exists_mem_of_findSome_eq_some (chainResultAt m) (qnameSuffixes q) chain h
    obtain ⟨zr, hlast, hroot⟩ := chainResultAt_last_root m s chain hcr
    exact ⟨zr, by rw [List.getLast?_map, hlast]; rfl, hroot⟩

theorem lookupZone_mem (m : StoreMap) (k : Fqdn) (z : GoZone)
    (h : lookupZone m k = some z) : ∃ e ∈ m, e.1 = k ∧ e.2 = z := by
  rw [lookupZone] at h
  cases hf : m.find? (fun e => decide (e.1 = k)) with
  | none => rw [hf] at h; exact absurd h (by simp)
  | some e =>
    rw [hf] at h
    have hk := List.find?_some hf
    simp only [decide_eq_true_eq] at hk
    exact ⟨e, List.mem_of_find?_eq_some hf, hk, Option.some.inj h⟩

theorem chainLoop_root_in_store (m : StoreMap) :
    ∀ (fuel : Nat) (z : GoZone) (acc : List GoZone) (l : List GoZone),
      chainLoop m fuel z acc = some l →
      ∃ p z2, lookupZone m p = some z2 ∧ z2.name = [] := by
  intro fuel
  induction fuel with
  | zero =>
    intro z acc l h
    rcases z with ⟨n, p, e⟩
    cases p <;> simp [chainLoop] at h
  | succ fuel ih =>
    intro z acc l h
    rcases z with ⟨n, p, e⟩
    cases p with
    | none => simp [chainLoop] at h
    | some p =>
      simp only [chainLoop] at h
      split at h
      next => exact absurd h (by simp)
      next z2 hz2 =>
        split at h
        next => exact absurd h (by simp)
        next =>
          split at h
          next hroot => exact ⟨p, z2, hz2, hroot⟩
          next => exact ih z2 (acc ++ [z2]) l h

theorem chainResultAt_none_of_no_root (m : StoreMap)
    (hwf : ∀ e ∈ m, e.2.name = e.1) (hroot : lookupZone m [] = none) (s : Fqdn) :
    chainResultAt m s = none := by
  cases h : chainResultAt m s with
  | none => rfl
  | some chain =>
    exfalso
    rw [chainResultAt] at h
    split at h
    next => exact absurd h (by simp)
    next z hz =>
      split at h
      next => exact absurd h (by simp)
      next =>
        split at h
        next hzr =>
          obtain ⟨e, he, hek, hez⟩ := lookupZone_mem m s z hz
          have hzname : z.name = s := by rw [← hez, hwf e he, hek]
          rw [hzname] at hzr
          rw [hzr] at hz
          rw [hz] at hroot
          exact absurd hroot (by simp)
        next =>
          obtain ⟨p, z2, hz2, hz2r⟩ := chainLoop_root_in_store m (m.length + 1) z [z] chain h
          obtain ⟨e, he, hek, hez⟩ := lookupZone_mem m p z2 hz2
          have hzname : z2.name = p := by rw [← hez, hwf e he, hek]
          rw [hzname] at hz2r
          rw [hz2r] at hz2
          rw [hz2] at hroot
          exact absurd hroot (by simp)

theorem findSome_eq_none_of_all_none {α β : Type} (f : α → Option β) :
    ∀ (l : List α), (∀ a ∈ l, f a = none) → l.findSome? f = none := by
  intro l
  induction l with
  | nil => intro _; rfl
  | cons a l ih =>
    intro hall
    rw [List.findSome?_cons, hall a (List.mem_cons_self a l)]
    exact ih (fun x hx => hall x (List.mem_cons_of_mem a hx))

/-- C10 counterexample: while the store's underlying map is still `nil`
(no zone was ever added), `getZoneList` returns `nil` — an empty slice —
so the claim that it never returns an empty slice fails. -/
theorem c10_get_zone_list_counterexample :
    getZoneList none ["www", "example", "com"] = [] := rfl

/-- C10 amended: once the store's map has been initialised (any zone
added), `getZoneList` never returns an empty slice — while the map is
still nil it returns an empty one; when no stored unexpired chain is
found it returns a one-element slice holding the store's entry for the
root, which is a nil zone pointer whenever no root zone was added (for a
store keyed by apex name), and `Resolver.exchange` then dereferences
`knownZones[0].name()` without a nil check, which panics in that case —
the resolver's exchange requires a root entry in the store. -/
theorem c10_get_zone_list_never_empty_amended (m : StoreMap) (q : Fqdn) :
    getZoneList (some m) q ≠ [] ∧
    getZoneList none q = [] ∧
    ((∀ e ∈ m, e.2.name = e.1) → lookupZone m [] = none →
      getZoneList (some m) q = [none] ∧ exchangeKnownZonesTarget (some m) q = none) := by
  refine ⟨?ne, rfl, ?panic⟩
  case ne =>
    rw [getZoneList_eq_spec, getZoneListSpec]
    cases h : (qnameSuffixes q).findSome? (chainResultAt m) with
    | none => simp
    | some chain =>
      show chain.map some ≠ []
      obtain ⟨s, hs, hcr⟩ :=
        exists_mem_of_findSome_eq_some (chainResultAt m) (qnameSuffixes q) chain h
      obtain ⟨zr, hlast, _⟩ := chainResultAt_last_root m s chain hcr
      intro hc
      have hce : chain = [] := List.map_eq_nil_iff.mp hc
      rw [hce] at hlast
      exact absurd hlast (by simp)
  case panic =>
    intro hwf hroot
    have hnone : (qnameSuffixes q).findSome? (chainResultAt m) = none :=
      findSome_eq_none_of_all_none (chainResultAt m) (qnameSuffixes q)
        (fun s _ => chainResultAt_none_of_no_root m hwf hroot s)
    have hres : getZoneList (some m) q = [none] := by
      rw [getZoneList_eq_spec, getZoneListSpec, hnone, hroot]
    exact ⟨hres, by rw [exchangeKnownZonesTarget, hres]⟩

theorem c10_get_zone_list_never_empty_amended_witness :
    (∀ e ∈ ([(["com"], (⟨["com"], some [], false⟩ : GoZone))] : StoreMap), e.2.name = e.1) ∧
    lookupZone [(["com"], ⟨["com"], some [], false⟩)] [] = none ∧
    (getZoneList (some [(["com"], ⟨["com"], some [], false⟩)]) ["com"] = [none] ∧
      exchangeKnownZonesTarget (some [(["com"], ⟨["com"], some [], false⟩)]) ["com"] = none) :=
  ⟨by decide, by decide,
    (c10_get_zone_list_never_empty_amended
        [(["com"], ⟨["com"], some [], false⟩)] ["com"]).2.2 (by decide) (by decide)⟩

theorem missingZonesLoop_spec (soaYes : Fqdn → Fqdn → Bool) :
    ∀ (l : List Fqdn) (st : MissingZonesOutcome),
      (missingZonesLoop soaYes l st).added.map (fun w => (w.name, w.parent))
          = st.added.map (fun w => (w.name, w.parent))
            ++ (soaPositiveZones soaYes st.z.name l).map (fun p => (p.1, some p.2)) ∧
      (missingZonesLoop soaYes l st).d.currentIdx = st.d.currentIdx + l.length ∧
      (missingZonesLoop soaYes l st).d.labels = st.d.labels ∧
      (missingZonesLoop soaYes l st).z = lastCreated st.z (soaPositiveZones soaYes st.z.name l) := by
  intro l
  induction l with
  | nil =>
    intro st
    exact ⟨by simp [missingZonesLoop, soaPositiveZones], rfl, rfl, rfl⟩
  | cons md rest ih =>
    intro st
    by_cases h : soaYes st.z.name md
    · have hstep : missingZonesLoop soaYes (md :: rest) st
          = missingZonesLoop soaYes rest
              ⟨⟨md, some st.z.name, st.z.poolExpired⟩,
                st.added ++ [⟨md, some st.z.name, st.z.poolExpired⟩], st.d.next⟩ := by
        rw [missingZonesLoop, if_pos h]
      have hsp : soaPositiveZones soaYes st.z.name (md :: rest)
          = (md, st.z.name) :: soaPositiveZones soaYes md rest := by
        rw [soaPositiveZones, if_pos h]
      obtain ⟨ha, hi, hl, hz⟩ := ih ⟨⟨md, some st.z.name, st.z.poolExpired⟩,
        st.added ++ [⟨md, some st.z.name, st.z.poolExpired⟩], st.d.next⟩
      refine ⟨?added, ?idx, ?lbls, ?zone⟩
      case added =>
        rw [hstep, ha, hsp]
        simp [Domain.next]
      case idx =>
        rw [hstep, hi]
        simp [Domain.next]
        omega
      case lbls => rw [hstep, hl]; rfl
      case zone =>
        rw [hstep, hz, hsp]
        cases hc : soaPositiveZones soaYes md rest with
        | nil => simp [lastCreated]
        | cons x xs =>
          simp only [lastCreated, List.getLast?_cons_cons]
          cases hlast : (x :: xs).getLast? with
          | none => exact absurd hlast (by simp)
          | some p => rfl
    · have hstep : missingZonesLoop soaYes (md :: rest) st
          = missingZonesLoop soaYes rest ⟨st.z, st.added, st.d.next⟩ := by
        rw [missingZonesLoop, if_neg h]
      have hsp : soaPositiveZones soaYes st.z.name (md :: rest)
          = soaPositiveZones soaYes st.z.name rest := by
        rw [soaPositiveZones, if_neg h]
      obtain ⟨ha, hi, hl, hz⟩ := ih ⟨st.z, st.added, st.d.next⟩
      refine ⟨?added, ?idx, ?lbls, ?zone⟩
      case added => rw [hstep, ha, hsp]
      case idx =>
        rw [hstep, hi]
        simp [Domain.next]
        omega
      case lbls => rw [hstep, hl]; rfl
      case zone => rw [hstep, hz, hsp]

/-- C1 counterexample: zone `example.com.`, walker for
`a.b.c.d.example.com.` positioned at `d.example.com.`, one record owned
by `a.b.c.d.example.com.`, and SOA probes that answer positively for
`d.example.com.` (against `example.com.`) and for `c.d.example.com.`
(against the freshly created `d.example.com.` zone): two new zones are
created and registered, not at most one. -/
theorem c1_check_for_missing_zones_counterexample :
    (checkForMissingZones
        (fun zn n =>
          decide ((zn = ["example", "com"] ∧ n = ["d", "example", "com"]) ∨
            (zn = ["d", "example", "com"] ∧ n = ["c", "d", "example", "com"])))
        ⟨["a", "b", "c", "d", "example", "com"], 3⟩
        ⟨["example", "com"], some ["com"], false⟩
        [["a", "b", "c", "d", "example", "com"]]).added.length = 2 := by decide

/-- C1 amended: when the picked owner lies below the current zone, a new
zone is created and registered for every intermediate name whose SOA
probe — issued against the zone current at that point (initially `z`,
then the most recently created clone) — succeeds, each new zone's parent
being that current zone; the walker is advanced past every intermediate
regardless, and the zone returned is the last clone created (or `z` when
none was). -/
theorem c1_check_for_missing_zones_amended (soaYes : Fqdn → Fqdn → Bool)
    (d : Domain) (z : GoZone) (owners : List Fqdn)
    (h1 : owners ≠ []) (h2 : pickNextRecordsOwner z.name owners ≠ []) :
    (checkForMissingZones soaYes d z owners).added.map (fun w => (w.name, w.parent))
        = (soaPositiveZones soaYes z.name (d.gap (pickNextRecordsOwner z.name owners))).map
            (fun p => (p.1, some p.2)) ∧
    (checkForMissingZones soaYes d z owners).d.currentIdx
        = d.currentIdx + (d.gap (pickNextRecordsOwner z.name owners)).length ∧
    (checkForMissingZones soaYes d z owners).d.labels = d.labels ∧
    (checkForMissingZones soaYes d z owners).z
        = lastCreated z (soaPositiveZones soaYes z.name (d.gap (pickNextRecordsOwner z.name owners))) := by
  have hstep : checkForMissingZones soaYes d z owners
      = missingZonesLoop soaYes (d.gap (pickNextRecordsOwner z.name owners)) ⟨z, [], d⟩ := by
    rw [checkForMissingZones, if_neg h1]
    simp only [if_neg h2]
  obtain ⟨ha, hi, hl, hz⟩ :=
    missingZonesLoop_spec soaYes (d.gap (pickNextRecordsOwner z.name owners)) ⟨z, [], d⟩
  rw [hstep]
  exact ⟨by rw [ha]; simp, hi, hl, hz⟩

theorem c1_check_for_missing_zones_amended_witness :
    c1owners ≠ [] ∧ pickNextRecordsOwner c1zone.name c1owners ≠ [] ∧
    ((checkForMissingZones c1soa c1dom c1zone c1owners).added.map (fun w => (w.name, w.parent))
        = (soaPositiveZones c1soa c1zone.name
            (c1dom.gap (pickNextRecordsOwner c1zone.name c1owners))).map
            (fun p => (p.1, some p.2)) ∧
      (checkForMissingZones c1soa c1dom c1zone c1owners).d.currentIdx
        = c1dom.currentIdx + (c1dom.gap (pickNextRecordsOwner c1zone.name c1owners)).length ∧
      (checkForMissingZones c1soa c1dom c1zone c1owners).d.labels = c1dom.labels ∧
      (checkForMissingZones c1soa c1dom c1zone c1owners).z
        = lastCreated c1zone (soaPositiveZones c1soa c1zone.name
            (c1dom.gap (pickNextRecordsOwner c1zone.name c1owners)))) :=
  ⟨by decide, by decide,
    c1_check_for_missing_zones_amended c1soa c1dom c1zone c1owners (by decide) (by decide)⟩

theorem minTtlOver_min (l : List RR) (a b : Nat) :
    minTtlOver (min a b) l = min a (minTtlOver b l) := by
  induction l generalizing b with
  | nil => rfl
  | cons r rest ih =>
    show minTtlOver (min r.ttl (min a b)) rest = min a (minTtlOver (min r.ttl b) rest)
    rw [← Nat.min_assoc, Nat.min_comm r.ttl a, Nat.min_assoc, ih]

theorem minTtlOver_le (l : List RR) (b : Nat) : minTtlOver b l ≤ b := by
  induction l generalizing b with
  | nil => exact Nat.le_refl b
  | cons r rest ih =>
    exact Nat.le_trans (ih (min r.ttl b)) (Nat.min_le_right _ _)

theorem minTtlOver_append (l1 l2 : List RR) (b : Nat) :
    minTtlOver b (l1 ++ l2) = minTtlOver (minTtlOver b l1) l2 := by
  simp [minTtlOver, List.foldl_append]

theorem min_minTtlOver_of_le (l : List RR) (t m : Nat) (h : t ≤ m) :
    min (minTtlOver m l) t = minTtlOver t l := by
  rw [Nat.min_comm, ← minTtlOver_min l t m, Nat.min_eq_left h]

theorem findAddressesForHostname_spec (maxTTL : Nat) (h : Fqdn) (records : List RR) :
    findAddressesForHostname maxTTL h records
      = (hostARecords h records, hostAAAARecords h records,
          minTtlOver maxTTL (hostAddrRecords h records)) := by
  suffices hgen : ∀ (rs : List RR) (acc : List RR × List RR × Nat),
      rs.foldl
        (fun acc rr =>
          if rr.name ≠ h then acc
          else if rr.rtype = typeA then (acc.1 ++ [rr], acc.2.1, min rr.ttl acc.2.2)
          else if rr.rtype = typeAAAA then (acc.1, acc.2.1 ++ [rr], min rr.ttl acc.2.2)
          else acc) acc
        = (acc.1 ++ hostARecords h rs, acc.2.1 ++ hostAAAARecords h rs,
            minTtlOver acc.2.2 (hostAddrRecords h rs)) by
    have := hgen records ([], [], maxTTL)
    simpa [findAddressesForHostname] using this
  intro rs
  induction rs with
  | nil =>
    intro acc
    simp [hostARecords, hostAAAARecords, hostAddrRecords, minTtlOver]
  | cons r rest ih =>
    intro acc
    rw [List.foldl_cons]
    by_cases hn : r.name = h
    · by_cases ha : r.rtype = typeA
      · have hstep : (if r.name ≠ h then acc
            else if r.rtype = typeA then (acc.1 ++ [r], acc.2.1, min r.ttl acc.2.2)
            else if r.rtype = typeAAAA then (acc.1, acc.2.1 ++ [r], min r.ttl acc.2.2)
            else acc) = (acc.1 ++ [r], acc.2.1, min r.ttl acc.2.2) := by
          simp [hn, ha]
        rw [hstep, ih]
        have hA : hostARecords h (r :: rest) = r :: hostARecords h rest := by
          simp [hostARecords, List.filter_cons, hn, ha]
        have hAAAA : hostAAAARecords h (r :: rest) = hostAAAARecords h rest := by
          have : ¬ (r.rtype = typeAAAA) := by rw [ha]; decide
          simp [hostAAAARecords, List.filter_cons, this]
        have hAddr : hostAddrRecords h (r :: rest) = r :: hostAddrRecords h rest := by
          simp [hostAddrRecords, List.filter_cons, hn, ha]
        rw [hA, hAAAA, hAddr]
        simp [minTtlOver]
      · by_cases h4 : r.rtype = typeAAAA
        · have hstep : (if r.name ≠ h then acc
              else if r.rtype = typeA then (acc.1 ++ [r], acc.2.1, min r.ttl acc.2.2)
              else if r.rtype = typeAAAA then (acc.1, acc.2.1 ++ [r], min r.ttl acc.2.2)
              else acc) = (acc.1, acc.2.1 ++ [r], min r.ttl acc.2.2) := by
            simp [hn, ha, h4]
          rw [hstep, ih]
          have hA : hostARecords h (r :: rest) = hostARecords h rest := by
            simp [hostARecords, List.filter_cons, ha]
          have hAAAA : hostAAAARecords h (r :: rest) = r :: hostAAAARecords h rest := by
            simp [hostAAAARecords, List.filter_cons, hn, h4]
          have hAddr : hostAddrRecords h (r :: rest) = r :: hostAddrRecords h rest := by
            simp [hostAddrRecords, List.filter_cons, hn, h4]
          rw [hA, hAAAA, hAddr]
          simp [minTtlOver]
        · have hstep : (if r.name ≠ h then acc
              else if r.rtype = typeA then (acc.1 ++ [r], acc.2.1, min r.ttl acc.2.2)
              else if r.rtype = typeAAAA then (acc.1, acc.2.1 ++ [r], min r.ttl acc.2.2)
              else acc) = acc := by
            simp [hn, ha, h4]
          rw [hstep, ih]
          have hA : hostARecords h (r :: rest) = hostARecords h rest := by
            simp [hostARecords, List.filter_cons, ha]
          have hAAAA : hostAAAARecords h (r :: rest) = hostAAAARecords h rest := by
            simp [hostAAAARecords, List.filter_cons, h4]
          have hAddr : hostAddrRecords h (r :: rest) = hostAddrRecords h rest := by
            simp [hostAddrRecords, List.filter_cons, ha, h4]
          rw [hA, hAAAA, hAddr]
    · have hstep : (if r.name ≠ h then acc
          else if r.rtype = typeA then (acc.1 ++ [r], acc.2.1, min r.ttl acc.2.2)
          else if r.rtype = typeAAAA then (acc.1, acc.2.1 ++ [r], min r.ttl acc.2.2)
          else acc) = acc := by
        simp [hn]
      rw [hstep, ih]
      have hA : hostARecords h (r :: rest) = hostARecords h rest := by
        simp [hostARecords, List.filter_cons, hn]
      have hAAAA : hostAAAARecords h (r :: rest) = hostAAAARecords h rest := by
        simp [hostAAAARecords, List.filter_cons, hn]
      have hAddr : hostAddrRecords h (r :: rest) = hostAddrRecords h rest := by
        simp [hostAddrRecords, List.filter_cons, hn]
      rw [hA, hAAAA, hAddr]

theorem hostAddr_empty_iff (h : Fqdn) (records : List RR) :
    hostHasAddress h records = false
      ↔ (hostARecords h records = [] ∧ hostAAAARecords h records = []) := by
  simp only [hostHasAddress, hostARecords, hostAAAARecords, List.any_eq_false,
    List.filter_eq_nil_iff, decide_eq_true_eq]
  constructor
  · intro hall
    exact ⟨fun r hr ⟨h1, h2⟩ => hall r hr ⟨h1, Or.inl h2⟩,
      fun r hr ⟨h1, h2⟩ => hall r hr ⟨h1, Or.inr h2⟩⟩
  · rintro ⟨hA, h4⟩ r hr ⟨h1, h2 | h2⟩
    · exact hA r hr ⟨h1, h2⟩
    · exact h4 r hr ⟨h1, h2⟩

theorem hostAddrRecords_empty (h : Fqdn) (records : List RR)
    (hfa : hostHasAddress h records = false) : hostAddrRecords h records = [] := by
  obtain ⟨hA, h4⟩ := (hostAddr_empty_iff h records).mp hfa
  simp only [hostARecords, hostAAAARecords, List.filter_eq_nil_iff, decide_eq_true_eq] at hA h4
  simp only [hostAddrRecords, List.filter_eq_nil_iff, decide_eq_true_eq]
  rintro r hr ⟨h1, h2 | h2⟩
  · exact hA r hr ⟨h1, h2⟩
  · exact h4 r hr ⟨h1, h2⟩

theorem enrich_loop_spec (maxTTL : Nat) (records : List RR) :
    ∀ (hosts : List Fqdn) (acc : EnrichAcc), acc.ttl ≤ maxTTL →
      hosts.foldl (enrichStep maxTTL records) acc
        = ⟨acc.still ++ hosts.filter (fun h => !(hostHasAddress h records)),
            acc.ipv4 ++ (hosts.map (fun h => (hostARecords h records).map serverOfRecord)).flatten,
            acc.ipv6 ++ (hosts.map (fun h => (hostAAAARecords h records).map serverOfRecord)).flatten,
            minTtlOver acc.ttl (hosts.map (fun h => hostAddrRecords h records)).flatten⟩ := by
  intro hosts
  induction hosts with
  | nil =>
    intro acc hle
    simp [minTtlOver]
  | cons h hosts ih =>
    intro acc hle
    rw [List.foldl_cons]
    cases hfa : hostHasAddress h records with
    | false =>
      obtain ⟨hA, h4⟩ := (hostAddr_empty_iff h records).mp hfa
      have hstep : enrichStep maxTTL records acc h
          = ⟨acc.still ++ [h], acc.ipv4, acc.ipv6, acc.ttl⟩ := by
        rw [enrichStep, findAddressesForHostname_spec]
        simp [hA, h4]
      rw [hstep, ih _ (by exact hle)]
      simp [List.filter_cons, hfa, hA, h4, hostAddrRecords_empty h records hfa]
    | true =>
      have hne : ¬ (hostARecords h records = [] ∧ hostAAAARecords h records = []) := by
        intro hc
        rw [(hostAddr_empty_iff h records).mpr hc] at hfa
        exact absurd hfa (by simp)
      have hstep : enrichStep maxTTL records acc h
          = ⟨acc.still,
              acc.ipv4 ++ (hostARecords h records).map serverOfRecord,
              acc.ipv6 ++ (hostAAAARecords h records).map serverOfRecord,
              min (minTtlOver maxTTL (hostAddrRecords h records)) acc.ttl⟩ := by
        rw [enrichStep, findAddressesForHostname_spec]
        simp only [if_neg hne]
        rfl
      have hle2 : min (minTtlOver maxTTL (hostAddrRecords h records)) acc.ttl ≤ maxTTL :=
        Nat.le_trans (Nat.min_le_right _ _) hle
      rw [hstep, ih _ hle2]
      simp only [EnrichAcc.mk.injEq]
      refine ⟨?still, ?v4, ?v6, ?ttl⟩
      case still => simp [List.filter_cons, hfa]
      case v4 => simp [List.append_assoc]
      case v6 => simp [List.append_assoc]
      case ttl =>
        show minTtlOver (min (minTtlOver maxTTL (hostAddrRecords h records)) acc.ttl) _ = _
        rw [min_minTtlOver_of_le _ _ _ hle]
        simp only [List.map_cons, List.flatten_cons]
        rw [minTtlOver_append]

/-- C4 counterexample: a pool whose expiry is set to 210 enriched at
`now = 200` with an A record of TTL 50 ends with expiry `250` — later
than the 210 it had, where the claim's
`min(existing, now + min TTL) = 210` would have kept it. -/
theorem c4_pool_enrich_counterexample :
    (NameserverPool.enrich 172800 200
        ⟨[["ns1", "example", "com"]], [], [], 210⟩
        [⟨["ns1", "example", "com"], typeA, 50, 7⟩]).expires = 250 ∧
    (210 : Int) < 250 := by
  constructor
  · rfl
  · decide

/-- C4 amended: for a pool with an expiry already set and a non-empty
record list, `enrich(rrs)` inserts the A/AAAA records matching the
still-unresolved hostnames into the IPv4/IPv6 vectors, removes those
hostnames from the hostnames-without-addresses list, and replaces the
pool expiry by `now` plus the minimum (capped at `MaxAllowedTTL`) TTL of
the newly added records — without taking the minimum with the existing
expiry, so the expiry can move later than it already was. -/
theorem c4_pool_enrich_amended (maxTTL : Nat) (now : Int)
    (pool : NameserverPool) (records : List RR)
    (h1 : records ≠ []) (h2 : 0 < pool.expires) :
    (pool.enrich maxTTL now records).hostsWithoutAddresses
        = pool.hostsWithoutAddresses.filter (fun h => !(hostHasAddress h records)) ∧
    (pool.enrich maxTTL now records).ipv4
        = pool.ipv4 ++ (pool.hostsWithoutAddresses.map
            (fun h => (hostARecords h records).map serverOfRecord)).flatten ∧
    (pool.enrich maxTTL now records).ipv6
        = pool.ipv6 ++ (pool.hostsWithoutAddresses.map
            (fun h => (hostAAAARecords h records).map serverOfRecord)).flatten ∧
    (pool.enrich maxTTL now records).expires
        = now + (minTtlOver maxTTL
            (pool.hostsWithoutAddresses.map (fun h => hostAddrRecords h records)).flatten : Int) := by
  have hloop := enrich_loop_spec maxTTL records pool.hostsWithoutAddresses
    ⟨[], pool.ipv4, pool.ipv6, maxTTL⟩ (Nat.le_refl maxTTL)
  rw [NameserverPool.enrich, if_neg h1]
  simp only [hloop]
  simp [if_pos h2]

theorem c4_pool_enrich_amended_witness :
    ([(⟨["ns1", "example", "com"], typeA, 50, 7⟩ : RR)] ≠ []) ∧
    ((0 : Int) < (⟨[["ns1", "example", "com"]], [], [], 210⟩ : NameserverPool).expires) ∧
    ((NameserverPool.enrich 172800 200
          ⟨[["ns1", "example", "com"]], [], [], 210⟩
          [⟨["ns1", "example", "com"], typeA, 50, 7⟩]).hostsWithoutAddresses
        = (⟨[["ns1", "example", "com"]], [], [], 210⟩ : NameserverPool).hostsWithoutAddresses.filter
            (fun h => !(hostHasAddress h [⟨["ns1", "example", "com"], typeA, 50, 7⟩])) ∧
      (NameserverPool.enrich 172800 200
          ⟨[["ns1", "example", "com"]], [], [], 210⟩
          [⟨["ns1", "example", "com"], typeA, 50, 7⟩]).ipv4
        = (⟨[["ns1", "example", "com"]], [], [], 210⟩ : NameserverPool).ipv4
            ++ ((⟨[["ns1", "example", "com"]], [], [], 210⟩ : NameserverPool).hostsWithoutAddresses.map
              (fun h => (hostARecords h [⟨["ns1", "example", "com"], typeA, 50, 7⟩]).map
                serverOfRecord)).flatten ∧
      (NameserverPool.enrich 172800 200
          ⟨[["ns1", "example", "com"]], [], [], 210⟩
          [⟨["ns1", "example", "com"], typeA, 50, 7⟩]).ipv6
        = (⟨[["ns1", "example", "com"]], [], [], 210⟩ : NameserverPool).ipv6
            ++ ((⟨[["ns1", "example", "com"]], [], [], 210⟩ : NameserverPool).hostsWithoutAddresses.map
              (fun h => (hostAAAARecords h [⟨["ns1", "example", "com"], typeA, 50, 7⟩]).map
                serverOfRecord)).flatten ∧
      (NameserverPool.enrich 172800 200
          ⟨[["ns1", "example", "com"]], [], [], 210⟩
          [⟨["ns1", "example", "com"], typeA, 50, 7⟩]).expires
        = 200 + (minTtlOver 172800
            ((⟨[["ns1", "example", "com"]], [], [], 210⟩ : NameserverPool).hostsWithoutAddresses.map
              (fun h => hostAddrRecords h [⟨["ns1", "example", "com"], typeA, 50, 7⟩])).flatten : Int)) :=
  ⟨by decide, by decide,
    c4_pool_enrich_amended 172800 200
      ⟨[["ns1", "example", "com"]], [], [], 210⟩
      [⟨["ns1", "example", "com"], typeA, 50, 7⟩] (by decide) (by decide)⟩

/-- C2: the code of `Result()` in `dnssec/result.go` accepts any
denial-of-existence state on the previous result when the chain drops
from Secure to non-Secure — it never checks that the previous result's
question was a DS query at the current zone's apex.  On the
repository's own test input (`TestResult_BreakInChainValidated`, second
scenario: previous question `example.com.` of type A, previous DoE
NsecNoData), the code returns Insecure where the claim — and the test —
require Bogus. -/
theorem c2_result_verdict_accepts_any_doe :
    authResultVerdict ["test", "example", "com"] typeA
        [⟨.secure, .notFound, none, none⟩,
          ⟨.secure, .notFound, none, none⟩,
          ⟨.secure, .nsecNoData, none,
            some ⟨0, [(["example", "com"], typeA)], [], [], [], false⟩⟩,
          ⟨.insecure, .notFound, none, none⟩,
          ⟨.insecure, .notFound, none, none⟩]
      = (.insecure, .nsecNoData, none) := by decide

/-- C5 counterexample: an authenticator verdict of Bogus with the
client's CD flag set: `finaliseResponse` leaves the rcode at NoError (0)
instead of SERVFAIL (2), because the whole Bogus-handling block is
guarded by CD being unset. -/
theorem c5_finalise_response_counterexample :
    ((finaliseResponse ⟨true, true, true⟩ (fun m a => .ok (m, a))
        (some (.bogus, .notFound, none)) typeA true
        ⟨0, [(["www", "example", "com"], typeA)],
          [⟨["www", "example", "com"], typeA, 60, 1⟩], [], [], false⟩
        none .unknown .notFound).auth = .bogus) ∧
    ((finaliseResponse ⟨true, true, true⟩ (fun m a => .ok (m, a))
        (some (.bogus, .notFound, none)) typeA true
        ⟨0, [(["www", "example", "com"], typeA)],
          [⟨["www", "example", "com"], typeA, 60, 1⟩], [], [], false⟩
        none .unknown .notFound).msg.map Msg.rcode = some 0) ∧
    (0 : Nat) ≠ 2 := by
  refine ⟨rfl, rfl, by decide⟩

/-- C5 amended: for every response finalised with an authenticator in
use, when the client did not set CD and the response's final
authentication state is Bogus, the returned message's rcode is SERVFAIL;
with CD set the rcode is left untouched by the authentication step (as
the counterexample shows). -/
theorem finaliseResponse_some_auth (flags : FinaliseFlags)
    (cnameFn : Msg → AuthenticationResult → Except Nat (Msg × AuthenticationResult))
    (a1 : AuthenticationResult) (deo1 : DenialOfExistenceState) (e1 : Option Nat)
    (qtype : Nat) (cd : Bool) (msg0 : Msg) (err0 : Option FErr)
    (auth0 : AuthenticationResult) (deo0 : DenialOfExistenceState) :
    finaliseResponse flags cnameFn (some (a1, deo1, e1)) qtype cd msg0 err0 auth0 deo0
      = if qtype ≠ typeCNAME ∧ recordsOfTypeExist msg0.answer typeCNAME then
          match cnameFn msg0 a1 with
          | .error e => ⟨none, some (.fromCname e), .unknown, .notFound⟩
          | .ok (msg1, auth2) =>
            finaliseTail flags true cd msg1 (e1.map FErr.fromAuth) auth2 deo1
        else finaliseTail flags true cd msg0 (e1.map FErr.fromAuth) a1 deo1 := rfl

theorem finaliseTail_bogus_rcode (flags : FinaliseFlags) (m0 : Msg) (err : Option FErr)
    (auth : AuthenticationResult) (deo : DenialOfExistenceState) (mm : Msg)
    (hm : (finaliseTail flags true false m0 err auth deo).msg = some mm)
    (hb : (finaliseTail flags true false m0 err auth deo).auth = .bogus) :
    mm.rcode = 2 := by
  have hcond : (true = true) ∧ ¬ (false = true) := by simp
  rw [finaliseTail] at hm hb
  rw [if_pos hcond] at hm hb
  split at hm
  next hbog =>
    split at hm
    all_goals
      have hx := Option.some.inj hm
      subst hx
      rfl
  next hbog =>
    split at hb
    next h2 => exact absurd h2 hbog
    next => exact absurd hb hbog

/-- C5 amended: when an authenticator was used and the client did not
set CD, every finalised response whose final authentication state is
Bogus carries rcode SERVFAIL (2); with CD set the Bogus-handling block
is skipped entirely and the rcode is left as produced by the earlier
steps (the counterexample exhibits a Bogus response with rcode
NoError). -/
theorem c5_finalise_bogus_servfail_amended (flags : FinaliseFlags)
    (cnameFn : Msg → AuthenticationResult → Except Nat (Msg × AuthenticationResult))
    (a : AuthenticationResult × DenialOfExistenceState × Option Nat)
    (qtype : Nat) (msg0 : Msg) (err0 : Option FErr) (auth0 : AuthenticationResult)
    (deo0 : DenialOfExistenceState) (m : Msg)
    (hm : (finaliseResponse flags cnameFn (some a) qtype false msg0 err0 auth0 deo0).msg = some m)
    (hb : (finaliseResponse flags cnameFn (some a) qtype false msg0 err0 auth0 deo0).auth = .bogus) :
    m.rcode = 2 := by
  rcases a with ⟨a1, deo1, e1⟩
  rw [finaliseResponse_some_auth] at hm hb
  by_cases hc : qtype ≠ typeCNAME ∧ recordsOfTypeExist msg0.answer typeCNAME = true
  · rw [if_pos hc] at hm hb
    cases hcf : cnameFn msg0 a1 with
    | error e =>
      rw [hcf] at hm hb
      exact absurd hm (by simp)
    | ok p =>
      rcases p with ⟨msg1, auth2⟩
      rw [hcf] at hm hb
      exact finaliseTail_bogus_rcode flags msg1 (e1.map FErr.fromAuth) auth2 deo1 m hm hb
  · rw [if_neg hc] at hm hb
    exact finaliseTail_bogus_rcode flags msg0 (e1.map FErr.fromAuth) a1 deo1 m hm hb

theorem c5_finalise_bogus_servfail_amended_witness :
    ((finaliseResponse ⟨true, true, true⟩ (fun m a => .ok (m, a))
        (some (.bogus, .notFound, none)) typeA false
        ⟨0, [(["www", "example", "com"], typeA)],
          [⟨["www", "example", "com"], typeA, 60, 1⟩], [], [], false⟩
        none .unknown .notFound).msg
      = some ⟨2, [(["www", "example", "com"], typeA)], [], [], [], false⟩) ∧
    ((finaliseResponse ⟨true, true, true⟩ (fun m a => .ok (m, a))
        (some (.bogus, .notFound, none)) typeA false
        ⟨0, [(["www", "example", "com"], typeA)],
          [⟨["www", "example", "com"], typeA, 60, 1⟩], [], [], false⟩
        none .unknown .notFound).auth = .bogus) ∧
    (⟨2, [(["www", "example", "com"], typeA)], [], [], [], false⟩ : Msg).rcode = 2 :=
  ⟨rfl, rfl,
    c5_finalise_bogus_servfail_amended ⟨true, true, true⟩ (fun m a => .ok (m, a))
      (.bogus, .notFound, none) typeA
      ⟨0, [(["www", "example", "com"], typeA)],
        [⟨["www", "example", "com"], typeA, 60, 1⟩], [], [], false⟩
      none .unknown .notFound
      ⟨2, [(["www", "example", "com"], typeA)], [], [], [], false⟩ rfl rfl⟩

theorem nsTcpLeg_eq (tcpA : NsAttempt) :
    nsTcpLeg tcpA = (⟨tcpA.msg, tcpA.err.map .clientErr⟩, [.udp, .tcp]) := by
  simp only [nsTcpLeg]
  split
  · rfl
  · split <;> rfl

/-- C8: for a non-nil message (under the client contract that an
errorless attempt carries a reply), UDP is attempted first; TCP is
attempted if and only if the UDP attempt errored or its reply was
truncated; whenever TCP ran its outcome is the returned response (in
particular when it succeeds without truncation), and otherwise the UDP
outcome — the last attempt that ran — is returned. -/
theorem c8_ns_exchange (m : Option Nat) (udpA tcpA : NsAttempt)
    (hm : m ≠ none)
    (hcontract : udpA.err = none → udpA.msg ≠ none) :
    (nsExchange m udpA tcpA).2.head? = some .udp ∧
    (NsProtocol.tcp ∈ (nsExchange m udpA tcpA).2
      ↔ (udpA.err.isSome ∨ truncatedOf udpA.msg = true)) ∧
    (NsProtocol.tcp ∈ (nsExchange m udpA tcpA).2
      → (nsExchange m udpA tcpA).1 = ⟨tcpA.msg, tcpA.err.map .clientErr⟩) ∧
    (NsProtocol.tcp ∉ (nsExchange m udpA tcpA).2
      → (nsExchange m udpA tcpA).1 = ⟨udpA.msg, udpA.err.map .clientErr⟩) := by
  match m with
  | none => exact absurd rfl hm
  | some q =>
    rw [nsExchange]
    by_cases he : udpA.err.isSome
    · have he2 : (⟨udpA.msg, udpA.err.map .clientErr⟩ : NsResult).err.isSome := by
        show (udpA.err.map NsErr.clientErr).isSome = true
        rw [Option.isSome_map']
        exact he
      rw [if_pos he2, nsTcpLeg_eq]
      refine ⟨rfl, ?iff, fun _ => rfl, ?noTcp⟩
      case iff =>
        constructor
        · intro _; exact Or.inl he
        · intro _
          show NsProtocol.tcp ∈ [NsProtocol.udp, NsProtocol.tcp]
          decide
      case noTcp =>
        intro hno
        exact absurd (show NsProtocol.tcp ∈ [NsProtocol.udp, NsProtocol.tcp] by decide) hno
    · have he2 : ¬ (⟨udpA.msg, udpA.err.map .clientErr⟩ : NsResult).err.isSome := by
        show ¬ (udpA.err.map NsErr.clientErr).isSome = true
        rw [Option.isSome_map']
        exact he
      rw [if_neg he2]
      by_cases ht : truncatedOf udpA.msg = false
      · rw [if_pos ht]
        refine ⟨rfl, ?iff, ?tcp, fun _ => rfl⟩
        case iff =>
          constructor
          · intro hmem
            exact absurd hmem (show NsProtocol.tcp ∉ [NsProtocol.udp] by decide)
          · intro hor
            rcases hor with hor | hor
            · exact absurd hor he
            · exact absurd hor (by simp [ht])
        case tcp =>
          intro hmem
          exact absurd hmem (show NsProtocol.tcp ∉ [NsProtocol.udp] by decide)
      · rw [if_neg ht, nsTcpLeg_eq]
        have htrue : truncatedOf udpA.msg = true := by
          cases hcase : truncatedOf udpA.msg
          · exact absurd hcase ht
          · rfl
        refine ⟨rfl, ?iff, fun _ => rfl, ?noTcp⟩
        case iff =>
          constructor
          · intro _; exact Or.inr htrue
          · intro _
            show NsProtocol.tcp ∈ [NsProtocol.udp, NsProtocol.tcp]
            decide
        case noTcp =>
          intro hno
          exact absurd (show NsProtocol.tcp ∈ [NsProtocol.udp, NsProtocol.tcp] by decide) hno

theorem c8_ns_exchange_witness :
    ((some 0 : Option Nat) ≠ none) ∧
    ((⟨some ⟨true, 5⟩, none⟩ : NsAttempt).err = none
      → (⟨some ⟨true, 5⟩, none⟩ : NsAttempt).msg ≠ none) ∧
    ((nsExchange (some 0) ⟨some ⟨true, 5⟩, none⟩ ⟨some ⟨false, 7⟩, none⟩).2.head?
        = some .udp ∧
      (NsProtocol.tcp ∈ (nsExchange (some 0) ⟨some ⟨true, 5⟩, none⟩ ⟨some ⟨false, 7⟩, none⟩).2
        ↔ ((⟨some ⟨true, 5⟩, none⟩ : NsAttempt).err.isSome
            ∨ truncatedOf (⟨some ⟨true, 5⟩, none⟩ : NsAttempt).msg = true)) ∧
      (NsProtocol.tcp ∈ (nsExchange (some 0) ⟨some ⟨true, 5⟩, none⟩ ⟨some ⟨false, 7⟩, none⟩).2
        → (nsExchange (some 0) ⟨some ⟨true, 5⟩, none⟩ ⟨some ⟨false, 7⟩, none⟩).1
            = ⟨(⟨some ⟨false, 7⟩, none⟩ : NsAttempt).msg,
                (⟨some ⟨false, 7⟩, none⟩ : NsAttempt).err.map .clientErr⟩) ∧
      (NsProtocol.tcp ∉ (nsExchange (some 0) ⟨some ⟨true, 5⟩, none⟩ ⟨some ⟨false, 7⟩, none⟩).2
        → (nsExchange (some 0) ⟨some ⟨true, 5⟩, none⟩ ⟨some ⟨false, 7⟩, none⟩).1
            = ⟨(⟨some ⟨true, 5⟩, none⟩ : NsAttempt).msg,
                (⟨some ⟨true, 5⟩, none⟩ : NsAttempt).err.map .clientErr⟩)) :=
  ⟨by decide, by decide,
    c8_ns_exchange (some 0) ⟨some ⟨true, 5⟩, none⟩ ⟨some ⟨false, 7⟩, none⟩
      (by decide) (by decide)⟩

theorem poolWrap_empty (zoneCtx : Option Fqdn) (qname : Fqdn) (r : PoolResp)
    (hmsg : (poolWrap zoneCtx qname r).msg = none) :
    ∃ w, (poolWrap zoneCtx qname r).err = some (.unableToResolve qname zoneCtx w) := by
  rw [poolWrap] at hmsg ⊢
  split at hmsg
  next hcond =>
    rw [if_pos hcond]
    exact ⟨r.err, rfl⟩
  next hcond =>
    simp only at hmsg
    exact absurd (Or.inl (by simp [hmsg])) hcond

theorem isSome_ite_some {α : Type} {c : Prop} [Decidable c] (x y : α) :
    (if c then some x else some y).isSome = true := by
  split <;> rfl

theorem poolSelect_isSome (h4 h6 av : Bool) (f4 f6 r4 r6 : PoolResp)
    (hor : h4 = true ∨ h6 = true) :
    (poolSelect h4 h6 av f4 f6 r4 r6).isSome = true := by
  cases h4 <;> cases h6 <;> cases av
  · rcases hor with h | h <;> exact absurd h (by decide)
  · rcases hor with h | h <;> exact absurd h (by decide)
  · rfl
  · exact isSome_ite_some _ _
  · exact isSome_ite_some _ _
  · exact isSome_ite_some _ _
  · exact isSome_ite_some _ _
  · exact isSome_ite_some _ _

/-- C9: `pool.exchange` always returns a response (never the nil
pointer), and whenever the returned response has no message its error is
set: either `ErrNoPoolConfiguredForZone` carrying the context zone, or
`ErrUnableToResolveAnswer` carrying the query name and the context zone
and wrapping any earlier transport error — an empty response with a nil
error never occurs. -/
theorem c9_pool_exchange_empty_implies_error (h4 h6 av : Bool) (zc : Option Fqdn)
    (qn : Fqdn) (f4 f6 r4 r6 : PoolResp) :
    poolExchange h4 h6 av zc qn f4 f6 r4 r6 ≠ none ∧
    (∀ out, poolExchange h4 h6 av zc qn f4 f6 r4 r6 = some out →
      out.msg = none →
      out.err = some (.noPoolConfigured zc) ∨
        ∃ w, out.err = some (.unableToResolve qn zc w)) := by
  by_cases hg : (¬ h4 = true ∧ ¬ h6 = true)
  · rw [poolExchange, if_pos hg]
    refine ⟨by simp, ?_⟩
    intro out hout hmsg
    left
    have hx := Option.some.inj hout
    subst hx
    rfl
  · rw [poolExchange, if_neg hg]
    have hor : h4 = true ∨ h6 = true := by
      cases hc4 : h4 with
      | true => exact Or.inl rfl
      | false =>
        cases hc6 : h6 with
        | true => exact Or.inr rfl
        | false => exact absurd ⟨by simp [hc4], by simp [hc6]⟩ hg
    cases hsel : poolSelect h4 h6 av f4 f6 r4 r6 with
    | none =>
      have := poolSelect_isSome h4 h6 av f4 f6 r4 r6 hor
      rw [hsel] at this
      exact absurd this (by simp)
    | some r =>
      refine ⟨by simp, ?_⟩
      intro out hout hmsg
      right
      have hx := Option.some.inj hout
      subst hx
      exact poolWrap_empty zc qn r hmsg

theorem c9_pool_exchange_empty_implies_error_witness :
    poolExchange false false false (some ["com"]) ["www", "example", "com"]
        ⟨none, none⟩ ⟨none, none⟩ ⟨none, none⟩ ⟨none, none⟩ ≠ none ∧
    ((⟨none, some (.noPoolConfigured (some ["com"]))⟩ : PoolOut).msg = none
      → (⟨none, some (.noPoolConfigured (some ["com"]))⟩ : PoolOut).err
            = some (.noPoolConfigured (some ["com"])) ∨
          ∃ w, (⟨none, some (.noPoolConfigured (some ["com"]))⟩ : PoolOut).err
            = some (.unableToResolve ["www", "example", "com"] (some ["com"]) w)) :=
  ⟨(c9_pool_exchange_empty_implies_error false false false (some ["com"])
      ["www", "example", "com"] ⟨none, none⟩ ⟨none, none⟩ ⟨none, none⟩ ⟨none, none⟩).1,
    fun hm =>
      (c9_pool_exchange_empty_implies_error false false false (some ["com"])
          ["www", "example", "com"] ⟨none, none⟩ ⟨none, none⟩ ⟨none, none⟩ ⟨none, none⟩).2
        ⟨none, some (.noPoolConfigured (some ["com"]))⟩ rfl hm⟩
